import Mathlib

/-!
Verification of the BoltzTraP1 Shankland-Koelling-Wood interpolation engine
(`amset/interpolate/boltztrap1.py`).

The Python source is shallowly embedded: numpy floating-point arrays become
lists/functions over `ℚ`; the transcendental operations (`np.cos`, `np.sin`,
`np.pi`, `np.linalg.norm`) are abstracted into a `NumericEnv` parameter, since
their values never decide any structural property verified here; fallible
Python code (exceptions) becomes `Except PyError`.
-/

set_option autoImplicit false
set_option maxRecDepth 8000

/-- Decidable equality of `Except` values, used to evaluate the embedded
operations at the concrete witness inputs. -/
instance {ε α : Type} [DecidableEq ε] [DecidableEq α] :
    DecidableEq (Except ε α) := fun x y =>
  match x, y with
  | .ok a, .ok b =>
    if h : a = b then isTrue (by rw [h]) else isFalse (by simp [h])
  | .error a, .error b =>
    if h : a = b then isTrue (by rw [h]) else isFalse (by simp [h])
  | .ok _, .error _ => isFalse (by simp)
  | .error _, .ok _ => isFalse (by simp)

namespace Amset

/-- A 3-component vector of rationals (embedding of a numpy shape-(3,) array). -/
abbrev Vec3 : Type := Fin 3 → ℚ

/-- A 3x3 matrix of rationals (embedding of a numpy shape-(3,3) array). -/
abbrev Mat3 : Type := Fin 3 → Fin 3 → ℚ

/-- `np.dot` of two 3-vectors. -/
def dot3 (v w : Vec3) : ℚ := ∑ i, v i * w i

/-- `np.dot` of a 3x3 matrix with a 3-vector. -/
def mulVec3 (M : Mat3) (v : Vec3) : Vec3 := fun i => ∑ j, M i j * v j

/-- `v.dot(M)`: a row 3-vector times a 3x3 matrix. -/
def vecMul3 (v : Vec3) (M : Mat3) : Vec3 := fun j => ∑ i, v i * M i j

/-- `np.dot` of two equal-length 1-D arrays, as plain lists (the length check is
performed by the callers that embed `np.dot`, see `npDotVecBlock`). -/
def dotL (v w : List ℚ) : ℚ := (List.zipWith (fun a b => a * b) v w).sum

/-- Modelled from the spec: `outer` from `amset.utils.general` (not under
`src/`); the outer product of two 3-vectors, used for the second derivative. -/
def outer (v w : Vec3) : Mat3 := fun i j => v i * w j

/-- Modelled from the spec: the Rydberg-to-eV conversion constant from
`amset.utils.constants` (not under `src/`).  Every verified property treats it
as an opaque fixed positive constant, so a small positive rational stands in
for the physical floating-point value. -/
def Ry_to_eV : ℚ := 27 / 2

/-- Modelled from the spec: Angstrom-to-metre conversion constant from
`amset.utils.constants` (not under `src/`); as with `Ry_to_eV`, only
positivity is relied upon. -/
def A_to_m : ℚ := 1 / 10

/-- Modelled from the spec: metre-to-centimetre conversion constant from
`amset.utils.constants` (not under `src/`); only positivity is relied upon. -/
def m_to_cm : ℚ := 100

/-- Modelled from the spec: reduced Planck constant from
`amset.utils.constants` (not under `src/`); only positivity is relied upon. -/
def hbar : ℚ := 1 / 1000

/-- The abstracted transcendental/floating-point primitives used by the
evaluator: `np.cos`, `np.sin`, `np.pi` and `np.linalg.norm` (Frobenius norm of
the lattice matrix).  No verified property depends on their actual values. -/
structure NumericEnv where
  cos : ℚ → ℚ
  sin : ℚ → ℚ
  pi : ℚ
  frobNorm : Mat3 → ℚ

/-- The Python exceptions raised by the module, by site.  `ValueError`s with
distinct messages are modelled as distinct constructors so that statements can
speak about which failure occurred; in particular `bandOutOfRange` carries the
two bounds that the Python message string interpolates. -/
inductive PyError where
  /-- `ValueError('To apply scissor set is_cb.')` in `get_energies`. -/
  | missingBandTypeForScissor
  /-- `ValueError("At least one band is not in range : {min}-{max} ...")` in
  `_get_interpolation_coefficients`; carries the two interpolated bounds. -/
  | bandOutOfRange (min_band max_band : ℤ)
  /-- numpy fancy-indexing `IndexError` (index outside the coefficient rows). -/
  | indexError
  /-- numpy `ValueError` from a dimension mismatch in `np.dot`. -/
  | shapeMismatch
  /-- any other `ValueError` raised while parsing the coefficient file. -/
  | valueError
  /-- failure of the worker pool (unreachable for a valid completion order). -/
  | poolFailure
deriving DecidableEq

/-- The `BoltzTraP1Parameters` namedtuple of the source. -/
structure BoltzTraP1Parameters where
  num_symmetries : ℕ
  coefficients : List (List ℚ)
  min_band : ℤ
  max_band : ℤ
  allowed_ibands : Finset ℤ
  num_star_vectors : List ℕ
  star_vectors : List (List Vec3)
  star_vector_products : List (List Vec3)
  star_vector_products_sq : List (List Mat3)

/-- `calculate_star_function` (closure inside `_get_interpolation_parameters`):
apply the first `num_symmetries` operations to the G-vector, deduplicate the
images exactly (the source deduplicates with `np.unique` on the raw bytes; the
resulting order is implementation-defined and only ever summed over, so the
embedding uses `List.dedup`, which produces the same distinct elements), and
right-pad with zero vectors up to `num_symmetries` slots. -/
def calculate_star_function (sym_ops : List Mat3) (num_symmetries : ℕ)
    (g_vector : Vec3) : ℕ × List Vec3 :=
  let trial := (sym_ops.take num_symmetries).map (fun op => mulVec3 op g_vector)
  let stg := trial.dedup
  let nst := stg.length
  (nst, stg ++ List.replicate (num_symmetries - nst) (0 : Vec3))

/-- The `star_vector_products_sq` construction of `_get_interpolation_parameters`:
`np.zeros((num_g_vectors, max(num_star_vectors), 3, 3))`, then for each
G-vector `nw` the first `num_star_vectors[nw]` slots are filled with the outer
product of the corresponding star-vector product with itself. -/
def star_products_sq_of (nsv : List ℕ) (svp : List (List Vec3)) :
    List (List Mat3) :=
  let maxNst := nsv.foldr Nat.max 0
  (List.range nsv.length).map (fun nw =>
    (List.range maxNst).map (fun i =>
      if i < nsv.getD nw 0 then
        outer ((svp.getD nw []).getD i 0) ((svp.getD nw []).getD i 0)
      else (0 : Mat3)))

/-- `astype('int')` / `dtype=int` conversion of a parsed floating value:
truncation toward zero (for the integer-valued tokens that actually occur the
rounding mode is irrelevant). -/
def truncInt (q : ℚ) : ℤ := q.num / q.den

/-- Python `int(token)`: succeeds only on an integer-valued token. -/
def toIntStrict (q : ℚ) : Option ℤ := if q.den = 1 then some q.num else none

/-- The mutable locals threaded through the `for i, l in enumerate(f)` loop of
`_get_interpolation_parameters`. -/
structure ParseState where
  g_vectors : List Vec3
  min_band : ℤ
  max_band : ℤ
  iband : List ℤ
  coefficients : List (List ℚ)
deriving DecidableEq

/-- `g_vectors[i] = np.fromstring(l, sep=' ')`: numpy assigns a length-3 line
directly, broadcasts a length-1 line, and raises `ValueError` otherwise. -/
def parseGvecLine (l : List ℚ) : Option Vec3 :=
  if l.length = 3 then some (fun j => l.getD (j : ℕ) 0)
  else if l.length = 1 then some (fun _ => l.getD 0 0)
  else none

/-- The `for i, l in enumerate(f)` loop of `_get_interpolation_parameters`:
lines before index `num_g_vectors` are G-vectors, the line at `num_g_vectors`
is the `min_band max_band` pair (which also builds the list `iband` of
1-based coefficient line indices), and each later line whose index is in
`iband` is appended to `coefficients` (removing that index); the loop breaks
when `iband` empties and silently stops at end of file otherwise. -/
def parseLoop (ng : ℕ) : ℕ → List (List ℚ) → ParseState →
    Except PyError ParseState
  | _, [], st => .ok st
  | i, l :: rest, st =>
    if i < ng then
      match parseGvecLine l with
      | none => .error .valueError
      | some v => parseLoop ng (i + 1) rest
          { st with g_vectors := st.g_vectors.set i v }
    else if i = ng then
      match l with
      | [a, b] =>
        let mn := truncInt a
        let mx := truncInt b
        let ib := (List.range (mx + 1 - mn).toNat).map
          (fun (j : ℕ) => (ng : ℤ) + (((mn + (j : ℤ)) - mn) + 1))
        parseLoop ng (i + 1) rest
          { st with min_band := mn, max_band := mx, iband := ib }
      | _ => .error .valueError
    else if (i : ℤ) ∈ st.iband then
      let st' : ParseState :=
        { st with coefficients := st.coefficients ++ [l],
                  iband := st.iband.erase (i : ℤ) }
      if st'.iband = [] then .ok st'
      else parseLoop ng (i + 1) rest st'
    else parseLoop ng (i + 1) rest st

/-- `_get_interpolation_parameters`, over a file pre-tokenised into lines of
numeric tokens.  Mirrors the source: header unpacking into four tokens, the
9-float cell-matrix line, the 192-operation symmetry line (each 3x3 block
transposed, axes `(0, 2, 1)`), the enumerate loop (`parseLoop`), and the star
construction (`calculate_star_function`, products, `star_products_sq_of`).
Python's `max()` on the empty `num_star_vectors` (zero G-vectors) raises, hence
the final emptiness check.  The `return_effective_mass` data is built here as
in the source; there is no error path after the loop besides the `max()` one. -/
def _get_interpolation_parameters (file : List (List ℚ)) :
    Except PyError BoltzTraP1Parameters :=
  match file with
  | [] => .error .valueError
  | header :: rest =>
    match header with
    | [_, t1, t2, _] =>
      match toIntStrict t1, toIntStrict t2 with
      | some ngZ, some nsymZ =>
        if 0 ≤ ngZ ∧ 0 ≤ nsymZ then
          let num_g_vectors := ngZ.toNat
          let num_symmetries := nsymZ.toNat
          match rest with
          | [] => .error .valueError
          | cellLine :: rest2 =>
            if cellLine.length < 9 then .error .valueError else
            let cell_matrix : Mat3 :=
              fun i j => cellLine.getD (3 * (i : ℕ) + (j : ℕ)) 0
            match rest2 with
            | [] => .error .valueError
            | symLine :: rest3 =>
              if symLine.length < 3 * 3 * 192 then .error .valueError else
              let sym_ops : List Mat3 := (List.range 192).map (fun m =>
                fun i j => (truncInt (symLine.getD (9 * m + 3 * (j : ℕ) + (i : ℕ)) 0) : ℚ))
              match parseLoop num_g_vectors 0 rest3
                  ⟨List.replicate num_g_vectors (0 : Vec3), 0, 0, [], []⟩ with
              | .error e => .error e
              | .ok st =>
                let allowed : Finset ℤ := Finset.Icc st.min_band st.max_band
                let stars := st.g_vectors.map
                  (fun g => calculate_star_function sym_ops num_symmetries g)
                let num_star_vectors := stars.map Prod.fst
                let star_vectors := stars.map Prod.snd
                let star_vector_products := star_vectors.map
                  (fun row => row.map (fun v => vecMul3 v cell_matrix))
                if num_star_vectors = [] then .error .valueError
                else .ok
                  { num_symmetries := num_symmetries
                    coefficients := st.coefficients
                    min_band := st.min_band
                    max_band := st.max_band
                    allowed_ibands := allowed
                    num_star_vectors := num_star_vectors
                    star_vectors := star_vectors
                    star_vector_products := star_vector_products
                    star_vector_products_sq :=
                      star_products_sq_of num_star_vectors star_vector_products }
        else .error .valueError
      | _, _ => .error .valueError
    | _ => .error .valueError

/-- The `iband` argument of `_get_interpolation_coefficients` /
`get_energy` / `get_energies`: a single 1-indexed band, a list of them, or
`None` (Python default) meaning every available band. -/
inductive IBand where
  | int (b : ℤ)
  | list (bs : List ℤ)
  | none
deriving DecidableEq

/-- The value returned by `_get_interpolation_coefficients`: a 1-D coefficient
vector (single band, `coefficients[iband][0]`) or a 2-D matrix of per-band rows
(`coefficients[iband]`). -/
inductive CoeffBlock where
  | vec (c : List ℚ)
  | mat (rows : List (List ℚ))
deriving DecidableEq

/-- The band-list normalisation at the top of `_get_interpolation_coefficients`:
an `int` becomes a singleton, and an empty/`None` request is replaced by
`sorted(allowed_ibands)`. -/
def resolveBands (p : BoltzTraP1Parameters) (ib : IBand) : List ℤ :=
  let bs : List ℤ := match ib with
    | .int b => [b]
    | .list l => l
    | .none => []
  if bs = [] then p.allowed_ibands.sort (· ≤ ·) else bs

/-- One step of numpy fancy row indexing `coefficients[idx]`.  After the
subset check every normalised index is nonnegative, so the Python semantics of
a negative index (wrap-around) is unreachable and modelled as `indexError`. -/
def npRow (m : List (List ℚ)) (i : ℤ) : Except PyError (List ℚ) :=
  if h : 0 ≤ i ∧ i.toNat < m.length then .ok (m.get ⟨i.toNat, h.2⟩)
  else .error .indexError

/-- Effectful map over a list in the `Except` monad, failing on the first
error in list order (the embedding of a Python loop/comprehension that can
raise). -/
def exceptMapList {α β : Type} (f : α → Except PyError β) :
    List α → Except PyError (List β)
  | [] => .ok []
  | x :: xs =>
    match f x with
    | .error e => .error e
    | .ok b =>
      match exceptMapList f xs with
      | .error e => .error e
      | .ok bs => .ok (b :: bs)

/-- The final return of `_get_interpolation_coefficients`:
`coefficients[iband][0]` when a single band was requested, the row matrix
`coefficients[iband]` otherwise. -/
def mkBlock (rows : List (List ℚ)) : CoeffBlock :=
  if rows.length = 1 then .vec rows.headI else .mat rows

/-- `_get_interpolation_coefficients`: resolve the request, check it against
`allowed_ibands` (raising `bandOutOfRange` with both bounds otherwise),
normalise by subtracting `min_band`, and return either the single row or the
fancy-indexed matrix of rows. -/
def _get_interpolation_coefficients (p : BoltzTraP1Parameters) (ib : IBand) :
    Except PyError CoeffBlock :=
  let bs := resolveBands p ib
  if bs.all (fun b => b ∈ p.allowed_ibands) then
    let normed := bs.map (fun b => b - p.min_band)
    match exceptMapList (fun i => npRow p.coefficients i) normed with
    | .error e => .error e
    | .ok rows => .ok (mkBlock rows)
  else .error (.bandOutOfRange p.min_band p.max_band)

/-- A numpy value that is either a scalar (single-band energy) or a 1-D array
(the value `np.dot(spwre, matrix)` would produce for a square multi-band
coefficient matrix). -/
inductive NpVal where
  | scalar (x : ℚ)
  | arr (xs : List ℚ)
deriving DecidableEq

/-- Scalar multiplication of an `NpVal` (numpy broadcasting of `* Ry_to_eV`). -/
def npValScale (v : NpVal) (c : ℚ) : NpVal :=
  match v with
  | .scalar x => .scalar (x * c)
  | .arr xs => .arr (xs.map (fun x => x * c))

/-- Scalar subtraction from an `NpVal` (numpy broadcasting of `r[0] - shift`). -/
def npValSub (v : NpVal) (s : ℚ) : NpVal :=
  match v with
  | .scalar x => .scalar (x - s)
  | .arr xs => .arr (xs.map (fun x => x - s))

/-- The derivative `d_energy`: a 3-vector for a single-band coefficient vector,
or a (3, ncols) matrix — stored as its list of 3-vector columns — for a
coefficient matrix. -/
inductive DVal where
  | vec (v : Vec3)
  | mat (cols : List Vec3)
deriving DecidableEq

/-- The velocity value appended to the result tuple, same shapes as `DVal`. -/
inductive VelVal where
  | vec (v : Vec3)
  | mat (cols : List Vec3)
deriving DecidableEq

/-- `arg = 2 * np.pi * parameters.star_vectors.dot(kpoint)`: the per-G-vector,
per-star-slot phases. -/
def argOf (env : NumericEnv) (p : BoltzTraP1Parameters) (kpoint : Vec3) :
    List (List ℚ) :=
  p.star_vectors.map (fun row => row.map (fun sv => 2 * env.pi * dot3 sv kpoint))

/-- `spwre = (np.sum(cos_arg, axis=1) - (num_symmetries - num_star_vectors))
/ num_star_vectors`: the symmetrised star (basis) functions. -/
def spwreOf (env : NumericEnv) (p : BoltzTraP1Parameters) (kpoint : Vec3) :
    List ℚ :=
  List.zipWith
    (fun (cosRow : List ℚ) (nst : ℕ) =>
      (cosRow.sum - ((p.num_symmetries : ℚ) - (nst : ℚ))) / (nst : ℚ))
    ((argOf env p kpoint).map (fun row => row.map env.cos))
    p.num_star_vectors

/-- Three-list `zipWith`, for the elementwise numpy expression combining
`star_vector_products`, `sin_arg` and `num_star_vectors`. -/
def zipWith3 {α β γ δ : Type} (f : α → β → γ → δ) :
    List α → List β → List γ → List δ
  | a :: as, b :: bs, c :: cs => f a b c :: zipWith3 f as bs cs
  | _, _, _ => []

/-- `dspwre = np.sum(star_vector_products * sin_arg[:, :, None], axis=1)
/ num_star_vectors[:, None]`: per G-vector, the sine-weighted sum of the star
vector products, divided componentwise by the star size. -/
def dspwreOf (env : NumericEnv) (p : BoltzTraP1Parameters) (kpoint : Vec3) :
    List Vec3 :=
  zipWith3
    (fun (svpRow : List Vec3) (sinRow : List ℚ) (nst : ℕ) =>
      fun j => (List.zipWith (fun (v : Vec3) s => v j * s) svpRow sinRow).sum
        / (nst : ℚ))
    p.star_vector_products
    ((argOf env p kpoint).map (fun row => row.map env.sin))
    p.num_star_vectors

/-- `np.dot(spwre, coefficients)`: a 1-D array against the coefficient block.
For a 1-D block the lengths must agree; for a 2-D block the vector length must
equal the number of rows, producing the per-column dot products.  A mismatch is
numpy's shape `ValueError`. -/
def npDotVecBlock (v : List ℚ) : CoeffBlock → Except PyError NpVal
  | .vec c =>
    if c.length = v.length then .ok (.scalar (dotL v c))
    else .error .shapeMismatch
  | .mat rows =>
    if rows.length = v.length then
      .ok (.arr ((List.transpose rows).map (fun col => dotL v col)))
    else .error .shapeMismatch

/-- `np.dot(dspwre.T, coefficients)`: the (3, num_G) transposed derivative array
against the coefficient block; the contraction length is the common row length
of the three rows.  A mismatch is numpy's shape `ValueError`. -/
def npDotRows3Block (A : Fin 3 → List ℚ) : CoeffBlock → Except PyError DVal
  | .vec c =>
    if c.length = (A 0).length then .ok (.vec (fun j => dotL (A j) c))
    else .error .shapeMismatch
  | .mat rows =>
    if rows.length = (A 0).length then
      .ok (.mat ((List.transpose rows).map
        (fun colB => fun j => dotL (A j) colB)))
    else .error .shapeMismatch

/-- `abs(np.dot(matrix_norm, ...)) * A_to_m * m_to_cm * Ry_to_eV
/ (hbar * 0.52917721067)` applied to one 3-vector (componentwise). -/
def absScale (v : Vec3) : Vec3 :=
  fun i => |v i| * A_to_m * m_to_cm * Ry_to_eV / (hbar * 0.52917721067)

/-- The final velocity computation: multiply the normalised lattice matrix into
`d_energy` (columnwise for the matrix-shaped case), take componentwise absolute
values and apply the unit-conversion constants. -/
def velApply (M : Mat3) : DVal → VelVal
  | .vec v => .vec (absScale (mulVec3 M v))
  | .mat cols => .mat (cols.map (fun c => absScale (mulVec3 M c)))

/-- The `(energy, Optional[velocity])` tuple returned by the wrapper.  The
`return_effective_mass` branch of the source is not modelled: no verified claim
depends on it, and it is off (the default) in every call path treated here. -/
structure EvalResult where
  energy : NpVal
  velocity : Option VelVal
deriving DecidableEq

/-- `_get_energy_wrapper` (module-level worker function): compute the phases,
the symmetrised basis functions `spwre`, the energy `spwre.dot(coefficients) *
Ry_to_eV`, and — when `return_velocity` — the derivative `dspwre`, `d_energy`,
and the normalised, absolute-valued, unit-converted velocity. -/
def _get_energy_wrapper (env : NumericEnv) (p : BoltzTraP1Parameters)
    (coefficients : CoeffBlock) (matrix : Mat3) (kpoint : Vec3)
    (return_velocity : Bool) : Except PyError EvalResult :=
  let spwre := spwreOf env p kpoint
  match npDotVecBlock spwre coefficients with
  | .error e => .error e
  | .ok energyRaw =>
    let energy := npValScale energyRaw Ry_to_eV
    if return_velocity then
      let dspwreT : Fin 3 → List ℚ :=
        fun j => (dspwreOf env p kpoint).map (fun v => v j)
      match npDotRows3Block dspwreT coefficients with
      | .error e => .error e
      | .ok dE =>
        let matrix_norm : Mat3 := fun i j => matrix i j / env.frobNorm matrix
        .ok ⟨energy, some (velApply matrix_norm dE)⟩
    else .ok ⟨energy, Option.none⟩

/-- `get_energy`: resolve the coefficient block for the requested band(s) and
evaluate the wrapper at the single k-point. -/
def get_energy (env : NumericEnv) (p : BoltzTraP1Parameters) (matrix : Mat3)
    (kpoint : Vec3) (iband : IBand) (return_velocity : Bool) :
    Except PyError EvalResult :=
  match _get_interpolation_coefficients p iband with
  | .error e => .error e
  | .ok c => _get_energy_wrapper env p c matrix kpoint return_velocity

/-- Ordered reassembly of pool results: read the completed `(index, value)`
pairs back in input-index order (`Pool.map` is an ordered map). -/
def collectOrdered {β : Type} : List ℕ → List (ℕ × β) → Option (List β)
  | [], _ => some []
  | j :: js, completed =>
    match completed.lookup j, collectOrdered js completed with
    | some b, some bs => some (b :: bs)
    | _, _ => none

/-- Modelled from the spec: `multiprocessing.Pool.map` (standard library, not
under `src/`).  Workers complete the tasks in an arbitrary `order` (a
permutation of the input indices); each completion records `(index, f x)`; the
pool then returns the results in input order regardless of completion order. -/
def poolMap {α β : Type} (f : α → β) (xs : List α) (order : List ℕ) :
    Option (List β) :=
  collectOrdered (List.range xs.length)
    (order.filterMap (fun i => (xs.get? i).map (fun x => (i, f x))))

/-- The dispatch in `get_energies`: `list(map(fun, kpoints))` when `n_jobs == 1`,
otherwise the process pool's ordered map. -/
def dispatch {α β : Type} (n_jobs : ℕ) (order : List ℕ) (f : α → β)
    (xs : List α) : Option (List β) :=
  if n_jobs = 1 then some (xs.map f) else poolMap f xs order

/-- Propagation of the first worker exception in input order (Python's `map`
raises at the first failing element; for the pool the raised exception is one
of the identically-typed worker failures). -/
def exceptSequence : List (Except PyError EvalResult) →
    Except PyError (List EvalResult) :=
  exceptMapList (fun r => r)

/-- `shift = (-1 if is_cb else 1) * scissor / 2` (Python truthiness: the
`-1` branch is taken exactly when `is_cb` is `True`). -/
def scissorShift (scissor : ℚ) (is_cb : Option Bool) : ℚ :=
  (if is_cb = some true then -1 else 1) * scissor / 2

/-- `get_energies`: the scissor guard (`MissingBandTypeForScissor`), the shift
`(-1 if is_cb else 1) * scissor / 2`, coefficient resolution, dispatch of the
wrapper (always with `return_velocity=True`) over the k-points, and assembly of
`([r[0] - shift], Optional[[r[1]]])`.  `n_jobs` and the workers' completion
`order` are explicit parameters of the embedding. -/
def get_energies (env : NumericEnv) (p : BoltzTraP1Parameters) (matrix : Mat3)
    (kpoints : List Vec3) (iband : IBand) (scissor : ℚ) (is_cb : Option Bool)
    (return_velocity : Bool) (n_jobs : ℕ) (order : List ℕ) :
    Except PyError (List NpVal × Option (List (Option VelVal))) :=
  if scissor ≠ 0 ∧ is_cb = Option.none then .error .missingBandTypeForScissor
  else
    let shift : ℚ := scissorShift scissor is_cb
    match _get_interpolation_coefficients p iband with
    | .error e => .error e
    | .ok coefficients =>
      match dispatch n_jobs order
          (fun k => _get_energy_wrapper env p coefficients matrix k true)
          kpoints with
      | Option.none => .error .poolFailure
      | some resultsE =>
        match exceptSequence resultsE with
        | .error e => .error e
        | .ok results =>
          .ok (results.map (fun r => npValSub r.energy shift),
               if return_velocity then some (results.map (fun r => r.velocity))
               else Option.none)

/-! Concrete fixtures used by counterexamples and witnesses. -/

/-- A concrete numeric environment for witnesses (values are irrelevant to
every verified property). -/
def testEnv : NumericEnv := ⟨fun _ => 1, fun _ => 1, 0, fun _ => 1⟩

/-- Is an `Except` value a success? -/
def isOkE {ε α : Type} : Except ε α → Bool
  | .ok _ => true
  | .error _ => false

/-- A one-band, one-G-vector, one-symmetry parameters fixture. -/
def testParams : BoltzTraP1Parameters where
  num_symmetries := 1
  coefficients := [[2]]
  min_band := 1
  max_band := 1
  allowed_ibands := Finset.Icc 1 1
  num_star_vectors := [1]
  star_vectors := [[fun _ => 1]]
  star_vector_products := [[fun _ => 1]]
  star_vector_products_sq := [[outer (fun _ => 1) (fun _ => 1)]]

/-- A two-band, one-G-vector parameters fixture (coefficient matrix with two
rows but a single G-vector). -/
def testParams2 : BoltzTraP1Parameters where
  num_symmetries := 1
  coefficients := [[3], [4]]
  min_band := 1
  max_band := 2
  allowed_ibands := Finset.Icc 1 2
  num_star_vectors := [1]
  star_vectors := [[fun _ => 1]]
  star_vector_products := [[fun _ => 1]]
  star_vector_products_sq := [[outer (fun _ => 1) (fun _ => 1)]]

/-- The identity operation, for the C7 witness. -/
def idMat3 : Mat3 := fun i j => if i = j then 1 else 0

/-- Consecutive integer indices, the normal form of the pending `iband` list. -/
def intRange (s : ℤ) (n : ℕ) : List ℤ :=
  (List.range n).map (fun (t : ℕ) => s + (t : ℤ))

/-- A concrete coefficient file (pre-tokenised lines) whose `min/max` line
promises two coefficient lines (`1 2`) but which contains only one: header
`ng = 1`, `nsym = 2`; a 9-token cell line; a 1728-token symmetry line; one
G-vector line; the band-bounds line; a single coefficient line. -/
def truncatedFile : List (List ℚ) :=
  [0, 1, 2, 0] :: List.replicate 9 (0 : ℚ) :: List.replicate 1728 (0 : ℚ) ::
    [[1, 2, 3], [1, 2], [5]]

/-- A concrete complete coefficient file with `nsym = 2` whose two retained
symmetry operations coincide (both zero), so every star has a single distinct
member and `max(num_star_vectors) = 1 < num_symmetries`. -/
def smallStarFile : List (List ℚ) :=
  [0, 1, 2, 0] :: List.replicate 9 (0 : ℚ) :: List.replicate 1728 (0 : ℚ) ::
    [[1, 2, 3], [1, 1], [5]]

/-! Helper lemmas about the embedded operations. -/

theorem exceptMapList_ok_of_forall {α β : Type} {f : α → Except PyError β}
    {g : α → β} : ∀ {l : List α}, (∀ x ∈ l, f x = .ok (g x)) →
    exceptMapList f l = .ok (l.map g) := by
  intro l
  induction l with
  | nil => intro _; rfl
  | cons x xs ih =>
    intro h
    have hx : f x = .ok (g x) := h x (List.mem_cons_self x xs)
    have hxs := ih (fun y hy => h y (List.mem_cons_of_mem x hy))
    simp [exceptMapList, hx, hxs]

theorem exceptMapList_error_mem {α β : Type} {f : α → Except PyError β}
    {e : PyError} : ∀ {l : List α}, exceptMapList f l = .error e →
    ∃ x ∈ l, f x = .error e := by
  intro l
  induction l with
  | nil => intro h; simp [exceptMapList] at h
  | cons x xs ih =>
    intro h
    simp only [exceptMapList] at h
    cases hx : f x with
    | error e2 =>
      rw [hx] at h
      exact ⟨x, List.mem_cons_self x xs, by cases h; exact hx⟩
    | ok b =>
      rw [hx] at h
      cases hxs : exceptMapList f xs with
      | error e2 =>
        rw [hxs] at h
        cases h
        obtain ⟨y, hy, hfy⟩ := ih hxs
        exact ⟨y, List.mem_cons_of_mem x hy, hfy⟩
      | ok bs => rw [hxs] at h; cases h

theorem npRow_error {m : List (List ℚ)} {i : ℤ} {e : PyError}
    (h : npRow m i = .error e) : e = .indexError := by
  unfold npRow at h
  split at h
  · cases h
  · cases h; rfl

theorem coeff_error_cases {p : BoltzTraP1Parameters} {ib : IBand} {e : PyError}
    (h : _get_interpolation_coefficients p ib = .error e) :
    e = .bandOutOfRange p.min_band p.max_band ∨ e = .indexError := by
  simp only [_get_interpolation_coefficients] at h
  split at h
  · split at h
    · next heq =>
      cases h
      obtain ⟨x, _, hx⟩ := exceptMapList_error_mem heq
      exact Or.inr (npRow_error hx)
    · cases h
  · cases h
    exact Or.inl rfl

theorem npDotVecBlock_error {v : List ℚ} {c : CoeffBlock} {e : PyError}
    (h : npDotVecBlock v c = .error e) : e = .shapeMismatch := by
  cases c <;> simp only [npDotVecBlock] at h <;> split at h <;> cases h <;> rfl

theorem npDotRows3Block_error {A : Fin 3 → List ℚ} {c : CoeffBlock}
    {e : PyError} (h : npDotRows3Block A c = .error e) : e = .shapeMismatch := by
  cases c <;> simp only [npDotRows3Block] at h <;> split at h <;> cases h <;> rfl

theorem wrapper_error {env : NumericEnv} {p : BoltzTraP1Parameters}
    {c : CoeffBlock} {matrix : Mat3} {k : Vec3} {rv : Bool} {e : PyError}
    (h : _get_energy_wrapper env p c matrix k rv = .error e) :
    e = .shapeMismatch := by
  simp only [_get_energy_wrapper] at h
  split at h
  · next heq =>
    cases h
    exact npDotVecBlock_error heq
  · split at h
    · split at h
      · next heq =>
        cases h
        exact npDotRows3Block_error heq
      · cases h
    · cases h

/-! Lemmas about the pool model. -/

theorem lookup_completed_of_mem {α β : Type} (f : α → β) (xs : List α) (j : ℕ)
    (hj : j < xs.length) :
    ∀ order : List ℕ, j ∈ order →
      (order.filterMap (fun i => (xs.get? i).map (fun x => (i, f x)))).lookup j
        = (xs.get? j).map f := by
  intro order
  induction order with
  | nil => intro h; cases h
  | cons i is ih =>
    intro hmem
    by_cases hij : i = j
    · subst hij
      have hsome : xs[i]? = some xs[i] := List.getElem?_eq_getElem hj
      simp [List.filterMap_cons, List.get?_eq_getElem?, hsome, List.lookup]
    · cases hx : xs.get? i with
      | none =>
        simp only [List.filterMap_cons, hx, Option.map_none']
        exact ih (by cases hmem with
          | head => exact absurd rfl hij
          | tail _ h => exact h)
      | some x =>
        simp only [List.filterMap_cons, hx, Option.map_some']
        have hne : (j == i) = false := by
          simp [beq_iff_eq]
          intro hji; exact hij hji.symm
        simp only [List.lookup, hne]
        exact ih (by cases hmem with
          | head => exact absurd rfl hij
          | tail _ h => exact h)

theorem collectOrdered_of_forall {β : Type} {completed : List (ℕ × β)}
    {g : ℕ → β} : ∀ {idxs : List ℕ},
    (∀ j ∈ idxs, completed.lookup j = some (g j)) →
    collectOrdered idxs completed = some (idxs.map g) := by
  intro idxs
  induction idxs with
  | nil => intro _; rfl
  | cons j js ih =>
    intro h
    have hj := h j (List.mem_cons_self j js)
    have hjs := ih (fun y hy => h y (List.mem_cons_of_mem j hy))
    simp [collectOrdered, hj, hjs]

theorem map_getD_range {α : Type} (xs : List α) (d : α) :
    (List.range xs.length).map (fun j => xs.getD j d) = xs := by
  apply List.ext_getElem
  · simp
  · intro i h1 h2
    simp only [List.getElem_map, List.getElem_range]
    rw [List.getD_eq_getElem]

theorem poolMap_perm {α β : Type} (f : α → β) (xs : List α) (order : List ℕ)
    (h : order.Perm (List.range xs.length)) :
    poolMap f xs order = some (xs.map f) := by
  cases xs with
  | nil =>
    have h0 : order.Perm ([] : List ℕ) := by simpa using h
    have : order = [] := h0.eq_nil
    simp [poolMap, this, collectOrdered]
  | cons x0 rest =>
    unfold poolMap
    rw [collectOrdered_of_forall (g := fun j => f ((x0 :: rest).getD j x0))]
    · rw [show ((List.range (x0 :: rest).length).map
          (fun j => f ((x0 :: rest).getD j x0)))
          = (((List.range (x0 :: rest).length).map
            (fun j => (x0 :: rest).getD j x0)).map f) by rw [List.map_map]; rfl]
      rw [map_getD_range]
    · intro j hj
      have hjlt : j < (x0 :: rest).length := by simpa using hj
      have hjmem : j ∈ order := h.mem_iff.mpr hj
      rw [lookup_completed_of_mem f (x0 :: rest) j hjlt order hjmem]
      rw [List.get?_eq_get hjlt]
      simp only [Option.map_some']
      congr 1
      rw [List.getD_eq_getElem]
      rfl

theorem dispatch_eq {α β : Type} (n_jobs : ℕ) (order : List ℕ) (f : α → β)
    (xs : List α) (h : n_jobs = 1 ∨ order.Perm (List.range xs.length)) :
    dispatch n_jobs order f xs = some (xs.map f) := by
  unfold dispatch
  by_cases h1 : n_jobs = 1
  · simp [h1]
  · rcases h with h | h
    · exact absurd h h1
    · simp [h1, poolMap_perm f xs order h]

theorem collectOrdered_mem {β : Type} :
    ∀ {idxs : List ℕ} {completed : List (ℕ × β)} {bs : List β},
    collectOrdered idxs completed = some bs →
      ∀ b ∈ bs, ∃ j, (j, b) ∈ completed := by
  intro idxs
  induction idxs with
  | nil =>
    intro completed bs h b hb
    cases h
    simp at hb
  | cons j js ih =>
    intro completed bs h b hb
    simp only [collectOrdered] at h
    split at h
    · next b0 bs0 hlook hrest =>
      cases h
      rcases List.mem_cons.mp hb with hb | hb
      · subst hb
        obtain ⟨l1, l2, hl, _⟩ := List.lookup_eq_some_iff.mp hlook
        exact ⟨j, by
          rw [hl]; exact List.mem_append_right _ (List.mem_cons_self _ _)⟩
      · exact ih hrest b hb
    · cases h

theorem dispatch_mem {α β : Type} {n_jobs : ℕ} {order : List ℕ} {f : α → β}
    {xs : List α} {bs : List β} (h : dispatch n_jobs order f xs = some bs) :
    ∀ b ∈ bs, ∃ x, b = f x := by
  unfold dispatch at h
  split at h
  · cases h
    intro b hb
    obtain ⟨x, _, rfl⟩ := List.mem_map.mp hb
    exact ⟨x, rfl⟩
  · unfold poolMap at h
    intro b hb
    obtain ⟨j, hj⟩ := collectOrdered_mem h b hb
    obtain ⟨i, hi, heq⟩ := List.mem_filterMap.mp hj
    cases hx : xs.get? i with
    | none => rw [hx] at heq; cases heq
    | some x =>
      rw [hx] at heq
      simp only [Option.map_some', Option.some.injEq, Prod.mk.injEq] at heq
      exact ⟨x, heq.2.symm⟩

/-! The claim theorems. -/

/-- C6: `get_energies` fails with the `MissingBandTypeForScissor` error if and
only if `scissor ≠ 0` and `is_cb` is unspecified (`None`); the universally
quantified band request and k-point list on both sides of the `iff` show that
in that case the failure happens before any evaluation — even invalid bands or
k-points are never examined. -/
theorem c6_missing_band_type_iff
    (env : NumericEnv) (p : BoltzTraP1Parameters) (matrix : Mat3)
    (kpoints : List Vec3) (iband : IBand) (scissor : ℚ) (is_cb : Option Bool)
    (rv : Bool) (n_jobs : ℕ) (order : List ℕ) :
    get_energies env p matrix kpoints iband scissor is_cb rv n_jobs order =
      .error .missingBandTypeForScissor ↔
      (scissor ≠ 0 ∧ is_cb = Option.none) := by
  constructor
  · intro h
    by_contra hguard
    simp only [get_energies] at h
    rw [if_neg hguard] at h
    split at h
    · next e heq =>
      cases h
      rcases coeff_error_cases heq with h2 | h2 <;> cases h2
    · split at h
      · cases h
      · next resultsE hdisp =>
        split at h
        · next e heq =>
          cases h
          obtain ⟨x, hx, hfx⟩ := exceptMapList_error_mem heq
          obtain ⟨k, rfl⟩ := dispatch_mem hdisp x hx
          cases wrapper_error hfx
        · cases h
  · intro hguard
    simp only [get_energies]
    rw [if_pos hguard]

/-- C9: bulk evaluation through the worker pool (any worker count, any
completion order that is a permutation of the task indices) returns exactly the
same result sequence as sequential evaluation (`n_jobs = 1`), so the i-th
output always corresponds to the i-th input k-point, independent of worker
completion order. -/
theorem c9_parallel_matches_sequential
    (env : NumericEnv) (p : BoltzTraP1Parameters) (matrix : Mat3)
    (kpoints : List Vec3) (iband : IBand) (scissor : ℚ) (is_cb : Option Bool)
    (rv : Bool) (n_jobs : ℕ) (order seq_order : List ℕ)
    (h : order.Perm (List.range kpoints.length)) :
    get_energies env p matrix kpoints iband scissor is_cb rv n_jobs order =
    get_energies env p matrix kpoints iband scissor is_cb rv 1 seq_order := by
  simp only [get_energies]
  by_cases hguard : scissor ≠ 0 ∧ is_cb = Option.none
  · rw [if_pos hguard, if_pos hguard]
  · rw [if_neg hguard, if_neg hguard]
    cases hcoef : _get_interpolation_coefficients p iband with
    | error e => rfl
    | ok coefficients =>
      dsimp only
      rw [dispatch_eq n_jobs order _ kpoints (Or.inr h),
          dispatch_eq 1 seq_order _ kpoints (Or.inl rfl)]

/-- Witness for C9 at a concrete two-point input with completion order
`[1, 0]`. -/
theorem c9_witness :
    get_energies testEnv testParams (fun _ _ => 1)
        [fun _ => 0, fun _ => 1] (.int 1) 0 Option.none false 4 [1, 0] =
    get_energies testEnv testParams (fun _ _ => 1)
        [fun _ => 0, fun _ => 1] (.int 1) 0 Option.none false 1 [] :=
  c9_parallel_matches_sequential testEnv testParams (fun _ _ => 1)
    [fun _ => 0, fun _ => 1] (.int 1) 0 Option.none false 4 [1, 0] []
    (by with_unfolding_all decide)

theorem npValSub_zero (v : NpVal) : npValSub v 0 = v := by
  cases v with
  | scalar x => simp [npValSub]
  | arr xs => simp [npValSub]

theorem scissorShift_zero (cb : Option Bool) : scissorShift 0 cb = 0 := by
  simp [scissorShift]

theorem scissorShift_some (scissor : ℚ) (b : Bool) :
    scissorShift scissor (some b) = (if b then (-1 : ℚ) else 1) * scissor / 2 := by
  simp [scissorShift]

theorem get_energies_scissor_zero_cb (env : NumericEnv)
    (p : BoltzTraP1Parameters) (matrix : Mat3) (kpoints : List Vec3)
    (iband : IBand) (rv : Bool) (n_jobs : ℕ) (order : List ℕ)
    (cb : Option Bool) :
    get_energies env p matrix kpoints iband 0 cb rv n_jobs order =
    get_energies env p matrix kpoints iband 0 Option.none rv n_jobs order := by
  unfold get_energies
  rw [scissorShift_zero, scissorShift_zero]
  rfl

/-- C5: the energies returned with scissor `s` and a specified
`is_conduction_band` flag are exactly the unshifted (scissor-0) energies minus
`shift = (-1 if is_cb else +1) * s / 2`; the shift is `0` when `s = 0`; and a
scissor-0 call gives the same result whatever `is_cb` is, in particular the
same as the all-defaults call (`scissor` omitted means `scissor = 0.0`,
`is_cb = None`). -/
theorem c5_scissor_shift
    (env : NumericEnv) (p : BoltzTraP1Parameters) (matrix : Mat3)
    (kpoints : List Vec3) (iband : IBand) (scissor : ℚ) (b : Bool) (rv : Bool)
    (n_jobs : ℕ) (order : List ℕ) (es0 : List NpVal)
    (vs0 : Option (List (Option VelVal)))
    (h0 : get_energies env p matrix kpoints iband 0 (some b) rv n_jobs order
      = .ok (es0, vs0)) :
    get_energies env p matrix kpoints iband scissor (some b) rv n_jobs order =
      .ok (es0.map (fun en =>
            npValSub en ((if b then (-1 : ℚ) else 1) * scissor / 2)), vs0)
    ∧ ((if b then (-1 : ℚ) else 1) * (0 : ℚ) / 2 = 0)
    ∧ (∀ cb : Option Bool,
        get_energies env p matrix kpoints iband 0 cb rv n_jobs order =
        get_energies env p matrix kpoints iband 0 Option.none rv n_jobs order) := by
  refine ⟨?_, by simp, ?_⟩
  · simp only [get_energies] at h0 ⊢
    rw [if_neg (by simp)] at h0
    rw [if_neg (by simp)]
    cases hcoef : _get_interpolation_coefficients p iband with
    | error e => simp only [hcoef] at h0; cases h0
    | ok coefficients =>
      simp only [hcoef] at h0 ⊢
      cases hdisp : dispatch n_jobs order
          (fun k => _get_energy_wrapper env p coefficients matrix k true)
          kpoints with
      | none => simp only [hdisp] at h0; cases h0
      | some resultsE =>
        simp only [hdisp] at h0 ⊢
        cases hseq : exceptSequence resultsE with
        | error e => simp only [hseq] at h0; cases h0
        | ok results =>
          simp only [hseq, Except.ok.injEq, Prod.mk.injEq] at h0 ⊢
          obtain ⟨hes, hvs⟩ := h0
          refine ⟨?_, hvs⟩
          rw [← hes, List.map_map]
          apply List.map_congr_left
          intro r _
          simp [npValSub_zero, scissorShift_zero, scissorShift_some]
  · intro cb
    exact get_energies_scissor_zero_cb env p matrix kpoints iband rv n_jobs
      order cb

/-- Witness for C5 at a concrete one-point, one-band input. -/
theorem c5_witness :
    (get_energies testEnv testParams (fun _ _ => 1) [fun _ => 0] (.int 1) 4
        (some true) false 1 [] =
      .ok ([NpVal.scalar (2 * Ry_to_eV)].map (fun en =>
        npValSub en ((if true then (-1 : ℚ) else 1) * 4 / 2)), Option.none))
    ∧ ((if true then (-1 : ℚ) else 1) * (0 : ℚ) / 2 = 0)
    ∧ (∀ cb : Option Bool,
        get_energies testEnv testParams (fun _ _ => 1) [fun _ => 0] (.int 1) 0
          cb false 1 [] =
        get_energies testEnv testParams (fun _ _ => 1) [fun _ => 0] (.int 1) 0
          Option.none false 1 []) :=
  c5_scissor_shift testEnv testParams (fun _ _ => 1) [fun _ => 0] (.int 1) 4
    true false 1 [] [NpVal.scalar (2 * Ry_to_eV)] Option.none
    (by with_unfolding_all decide)

theorem spwreOf_length (env : NumericEnv) (p : BoltzTraP1Parameters)
    (k : Vec3) : (spwreOf env p k).length =
      min p.star_vectors.length p.num_star_vectors.length := by
  unfold spwreOf argOf
  rw [List.length_zipWith, List.length_map, List.length_map]

theorem wrapper_mat_shape (env : NumericEnv) (p : BoltzTraP1Parameters)
    (matrix : Mat3) (k : Vec3) (rv : Bool) (rows : List (List ℚ))
    (hne : rows.length ≠ (spwreOf env p k).length) :
    _get_energy_wrapper env p (.mat rows) matrix k rv =
      .error .shapeMismatch := by
  simp only [_get_energy_wrapper, npDotVecBlock]
  rw [if_neg hne]

/-- C10 (implicit): a multi-band request produces a two-or-more-row coefficient
matrix, and whenever that row count differs from the number of G-vectors the
energy contraction `np.dot(spwre, coefficients)` is dimensionally ill-formed:
both `get_energy` and (for a nonempty k-point list) `get_energies` fail with
the numpy shape error instead of returning per-band results. -/
theorem c10_multiband_shape_error
    (env : NumericEnv) (p : BoltzTraP1Parameters) (matrix : Mat3) (k : Vec3)
    (kpoints : List Vec3) (iband : IBand) (scissor : ℚ) (is_cb : Option Bool)
    (rv : Bool) (n_jobs : ℕ) (order : List ℕ) (rows : List (List ℚ))
    (hblk : _get_interpolation_coefficients p iband = .ok (.mat rows))
    (_hrows2 : 2 ≤ rows.length)
    (hn : p.num_star_vectors.length = p.star_vectors.length)
    (hne : rows.length ≠ p.star_vectors.length)
    (hguard : ¬(scissor ≠ 0 ∧ is_cb = Option.none))
    (hks : kpoints ≠ [])
    (hdisp : n_jobs = 1 ∨ order.Perm (List.range kpoints.length)) :
    get_energy env p matrix k iband rv = .error .shapeMismatch
    ∧ get_energies env p matrix kpoints iband scissor is_cb rv n_jobs order =
        .error .shapeMismatch := by
  have hw : ∀ (k2 : Vec3) (rv2 : Bool),
      _get_energy_wrapper env p (.mat rows) matrix k2 rv2 =
        .error .shapeMismatch := by
    intro k2 rv2
    apply wrapper_mat_shape
    rw [spwreOf_length, hn, min_self]
    exact hne
  constructor
  · simp only [get_energy, hblk]
    exact hw k rv
  · simp only [get_energies]
    rw [if_neg hguard]
    simp only [hblk]
    rw [dispatch_eq n_jobs order _ kpoints hdisp]
    cases kpoints with
    | nil => exact absurd rfl hks
    | cons kh kt =>
      simp only [List.map_cons]
      rw [hw kh true]
      rfl

/-- Witness for C10: a two-band request against a single-G-vector parameters
fixture. -/
theorem c10_witness :
    get_energy testEnv testParams2 (fun _ _ => 1) (fun _ => 0) (.list [1, 2])
        false = .error .shapeMismatch
    ∧ get_energies testEnv testParams2 (fun _ _ => 1) [fun _ => 0]
        (.list [1, 2]) 0 Option.none false 1 [] = .error .shapeMismatch :=
  c10_multiband_shape_error testEnv testParams2 (fun _ _ => 1) (fun _ => 0)
    [fun _ => 0] (.list [1, 2]) 0 Option.none false 1 [] [[3], [4]]
    (by with_unfolding_all decide) (by with_unfolding_all decide)
    (by with_unfolding_all decide) (by with_unfolding_all decide)
    (fun hx => hx.1 rfl) (by with_unfolding_all decide) (Or.inl rfl)

/-- C4: band indices must lie in `[min_band, max_band]`: if some requested
band lies outside, `_get_interpolation_coefficients` (and hence every
evaluation) fails with the `bandOutOfRange` error carrying both bounds; if all
requested bands lie inside, no error is raised and the returned coefficient
block consists exactly of the rows indexed by each band normalised by
subtracting `min_band`. -/
theorem c4_band_range_check (p : BoltzTraP1Parameters) (ib : IBand)
    (hA : p.allowed_ibands = Finset.Icc p.min_band p.max_band)
    (hrows : (p.coefficients.length : ℤ) = p.max_band - p.min_band + 1) :
    ((∃ b ∈ resolveBands p ib, b < p.min_band ∨ p.max_band < b) →
      _get_interpolation_coefficients p ib =
        .error (.bandOutOfRange p.min_band p.max_band)
      ∧ ∀ (env : NumericEnv) (matrix : Mat3) (k : Vec3) (rv : Bool),
          get_energy env p matrix k ib rv =
            .error (.bandOutOfRange p.min_band p.max_band))
    ∧ ((∀ b ∈ resolveBands p ib, p.min_band ≤ b ∧ b ≤ p.max_band) →
      _get_interpolation_coefficients p ib =
        .ok (mkBlock ((resolveBands p ib).map
          (fun b => p.coefficients.getD (b - p.min_band).toNat [])))) := by
  constructor
  · rintro ⟨b, hb, hout⟩
    have hcoef : _get_interpolation_coefficients p ib =
        .error (.bandOutOfRange p.min_band p.max_band) := by
      simp only [_get_interpolation_coefficients]
      rw [if_neg]
      intro hall
      rw [List.all_eq_true] at hall
      have := hall b hb
      rw [decide_eq_true_eq, hA, Finset.mem_Icc] at this
      rcases hout with hlt | hlt
      · exact absurd this.1 (not_le.mpr hlt)
      · exact absurd this.2 (not_le.mpr hlt)
    exact ⟨hcoef, fun env matrix k rv => by simp only [get_energy, hcoef]⟩
  · intro hin
    simp only [_get_interpolation_coefficients]
    rw [if_pos]
    · rw [exceptMapList_ok_of_forall
        (g := fun i => p.coefficients.getD i.toNat [])]
      · rw [List.map_map]
        rfl
      · intro x hx
        obtain ⟨b, hb, rfl⟩ := List.mem_map.mp hx
        obtain ⟨hb1, hb2⟩ := hin b hb
        have h0 : 0 ≤ b - p.min_band := by omega
        have hlt : (b - p.min_band).toNat < p.coefficients.length := by omega
        unfold npRow
        rw [dif_pos ⟨h0, hlt⟩]
        rw [List.getD_eq_getElem _ _ hlt]
        rfl
    · rw [List.all_eq_true]
      intro b hb
      rw [decide_eq_true_eq, hA, Finset.mem_Icc]
      exact hin b hb

/-- Witness for C4 at one in-range and one out-of-range request against the
two-band fixture. -/
theorem c4_witness :
    ((∃ b ∈ resolveBands testParams2 (.list [1, 3]),
        b < testParams2.min_band ∨ testParams2.max_band < b) →
      _get_interpolation_coefficients testParams2 (.list [1, 3]) =
        .error (.bandOutOfRange testParams2.min_band testParams2.max_band)
      ∧ ∀ (env : NumericEnv) (matrix : Mat3) (k : Vec3) (rv : Bool),
          get_energy env testParams2 matrix k (.list [1, 3]) rv =
            .error (.bandOutOfRange testParams2.min_band
              testParams2.max_band))
    ∧ ((∀ b ∈ resolveBands testParams2 (.list [1, 3]),
        testParams2.min_band ≤ b ∧ b ≤ testParams2.max_band) →
      _get_interpolation_coefficients testParams2 (.list [1, 3]) =
        .ok (mkBlock ((resolveBands testParams2 (.list [1, 3])).map
          (fun b => testParams2.coefficients.getD
            (b - testParams2.min_band).toNat [])))) :=
  c4_band_range_check testParams2 (.list [1, 3]) rfl
    (by with_unfolding_all decide)

/-- C1: for every k-point and valid single-band coefficient vector (length
matching the number of G-vectors) the evaluator succeeds, returning
`energy = dot(S, coefficients) * Ry_to_eV` where, for every G-vector `g`, the
basis function is
`S[g] = (Σ_i cos(phase[g][i]) - (num_symmetries - num_star_vectors[g])) / num_star_vectors[g]`
with `phase[g][i] = 2π * dot(star_vectors[g][i], kpoint)`. -/
theorem c1_energy_formula (env : NumericEnv) (p : BoltzTraP1Parameters)
    (matrix : Mat3) (kpoint : Vec3) (c : List ℚ)
    (hc : c.length = p.star_vectors.length)
    (hn : p.num_star_vectors.length = p.star_vectors.length) :
    _get_energy_wrapper env p (.vec c) matrix kpoint false =
      .ok ⟨.scalar (dotL (spwreOf env p kpoint) c * Ry_to_eV), Option.none⟩
    ∧ ∀ g, g < p.star_vectors.length →
        (spwreOf env p kpoint).getD g 0 =
          (((p.star_vectors.getD g []).map
              (fun sv => env.cos (2 * env.pi * dot3 sv kpoint))).sum
            - ((p.num_symmetries : ℚ) - (p.num_star_vectors.getD g 0 : ℚ)))
          / (p.num_star_vectors.getD g 0 : ℚ) := by
  constructor
  · have hlen : c.length = (spwreOf env p kpoint).length := by
      rw [spwreOf_length, hn, min_self, hc]
    simp only [_get_energy_wrapper, npDotVecBlock]
    rw [if_pos hlen]
    rfl
  · intro g hg
    have hgs : g < (spwreOf env p kpoint).length := by
      rw [spwreOf_length, hn, min_self]
      exact hg
    have hgn : g < p.num_star_vectors.length := by rw [hn]; exact hg
    rw [List.getD_eq_getElem _ _ hgs, List.getD_eq_getElem _ _ hg,
        List.getD_eq_getElem _ _ hgn]
    simp only [spwreOf, argOf, List.getElem_zipWith, List.getElem_map]
    rw [List.map_map]
    rfl

/-- Witness for C1 at the one-band, one-G-vector fixture. -/
theorem c1_witness :
    (_get_energy_wrapper testEnv testParams (.vec [2]) (fun _ _ => 1)
        (fun _ => 0) false =
      .ok ⟨.scalar (dotL (spwreOf testEnv testParams (fun _ => 0)) [2]
          * Ry_to_eV), Option.none⟩)
    ∧ ∀ g, g < testParams.star_vectors.length →
        (spwreOf testEnv testParams (fun _ => 0)).getD g 0 =
          (((testParams.star_vectors.getD g []).map
              (fun sv => testEnv.cos (2 * testEnv.pi * dot3 sv (fun _ => 0)))).sum
            - ((testParams.num_symmetries : ℚ)
              - (testParams.num_star_vectors.getD g 0 : ℚ)))
          / (testParams.num_star_vectors.getD g 0 : ℚ) :=
  c1_energy_formula testEnv testParams (fun _ _ => 1) (fun _ => 0) [2]
    (by with_unfolding_all decide) (by with_unfolding_all decide)

theorem dedup_const {α : Type} [DecidableEq α] {a : α} :
    ∀ {l : List α}, l ≠ [] → (∀ x ∈ l, x = a) → l.dedup = [a] := by
  intro l
  induction l with
  | nil => intro h _; exact absurd rfl h
  | cons x xs ih =>
    intro _ hall
    cases xs with
    | nil => simp [hall x (List.mem_cons_self _ _)]
    | cons y ys =>
      have hmem : x ∈ y :: ys := by
        rw [hall x (List.mem_cons_self _ _),
          ← hall y (List.mem_cons_of_mem _ (List.mem_cons_self _ _))]
        exact List.mem_cons_self _ _
      rw [List.dedup_cons_of_mem hmem]
      exact ih (by simp) (fun z hz => hall z (List.mem_cons_of_mem _ hz))

/-- C7: the star of a G-vector (for at least one retained operation, all
retained) has between 1 and `num_symmetries` distinct members; the padded star
list has exactly `num_symmetries` slots, its first `nst` slots are
pairwise-distinct images of the G-vector under the retained operations (exact
deduplication), the remaining slots are zero vectors; and a G-vector whose
image under every retained operation is the zero vector has a one-member
star. -/
theorem c7_star_function_invariants (sym_ops : List Mat3) (nsym : ℕ)
    (g : Vec3) (h1 : 1 ≤ nsym) (h2 : nsym ≤ sym_ops.length) :
    (1 ≤ (calculate_star_function sym_ops nsym g).1
      ∧ (calculate_star_function sym_ops nsym g).1 ≤ nsym)
    ∧ (calculate_star_function sym_ops nsym g).2.length = nsym
    ∧ (∀ i, i < (calculate_star_function sym_ops nsym g).1 →
        ∃ op ∈ sym_ops.take nsym,
          (calculate_star_function sym_ops nsym g).2.getD i 0 = mulVec3 op g)
    ∧ (∀ i j, i < (calculate_star_function sym_ops nsym g).1 →
        j < (calculate_star_function sym_ops nsym g).1 → i ≠ j →
        (calculate_star_function sym_ops nsym g).2.getD i 0 ≠
          (calculate_star_function sym_ops nsym g).2.getD j 0)
    ∧ (∀ i, (calculate_star_function sym_ops nsym g).1 ≤ i → i < nsym →
        (calculate_star_function sym_ops nsym g).2.getD i 0 = (0 : Vec3))
    ∧ ((∀ op ∈ sym_ops.take nsym, mulVec3 op g = (0 : Vec3)) →
        (calculate_star_function sym_ops nsym g).1 = 1) := by
  simp only [calculate_star_function]
  set trial := (sym_ops.take nsym).map (fun op => mulVec3 op g) with htrial
  have htlen : trial.length = nsym := by
    rw [htrial, List.length_map, List.length_take]
    exact min_eq_left h2
  have hnst_le : trial.dedup.length ≤ nsym := by
    calc trial.dedup.length ≤ trial.length :=
          (List.dedup_sublist trial).length_le
      _ = nsym := htlen
  have htne : trial ≠ [] := by
    intro hcon
    rw [hcon] at htlen
    simp at htlen
    omega
  have hdne : trial.dedup ≠ [] := fun hcon =>
    htne ((List.dedup_eq_nil trial).mp hcon)
  have hnst_pos : 1 ≤ trial.dedup.length :=
    List.length_pos.mpr hdne
  have hstglen : (trial.dedup ++
      List.replicate (nsym - trial.dedup.length) (0 : Vec3)).length = nsym := by
    rw [List.length_append, List.length_replicate]
    omega
  refine ⟨⟨hnst_pos, hnst_le⟩, hstglen, ?_, ?_, ?_, ?_⟩
  · intro i hi
    have hilt : i < (trial.dedup ++
        List.replicate (nsym - trial.dedup.length) (0 : Vec3)).length := by
      rw [hstglen]; omega
    rw [List.getD_eq_getElem _ _ hilt, List.getElem_append_left hi]
    have hmem : trial.dedup[i] ∈ trial := List.mem_dedup.mp (List.getElem_mem _)
    obtain ⟨op, hop, heq⟩ := List.mem_map.mp hmem
    exact ⟨op, hop, heq.symm⟩
  · intro i j hi hj hij
    have hilt : i < (trial.dedup ++
        List.replicate (nsym - trial.dedup.length) (0 : Vec3)).length := by
      rw [hstglen]; omega
    have hjlt : j < (trial.dedup ++
        List.replicate (nsym - trial.dedup.length) (0 : Vec3)).length := by
      rw [hstglen]; omega
    rw [List.getD_eq_getElem _ _ hilt, List.getD_eq_getElem _ _ hjlt,
      List.getElem_append_left hi, List.getElem_append_left hj]
    intro hcon
    exact hij (((List.nodup_dedup trial).getElem_inj_iff).mp hcon)
  · intro i hnsti hinsym
    have hilt : i < (trial.dedup ++
        List.replicate (nsym - trial.dedup.length) (0 : Vec3)).length := by
      rw [hstglen]; omega
    rw [List.getD_eq_getElem _ _ hilt, List.getElem_append_right hnsti]
    exact List.getElem_replicate _ _
  · intro hz
    have hall : ∀ x ∈ trial, x = (0 : Vec3) := by
      intro x hx
      obtain ⟨op, hop, heq⟩ := List.mem_map.mp hx
      rw [← heq]
      exact hz op hop
    rw [dedup_const htne hall]
    rfl

/-- Witness for C7 with a single identity symmetry operation. -/
theorem c7_witness :
    (1 ≤ (calculate_star_function [idMat3] 1 (fun _ => 1)).1
      ∧ (calculate_star_function [idMat3] 1 (fun _ => 1)).1 ≤ 1)
    ∧ (calculate_star_function [idMat3] 1 (fun _ => 1)).2.length = 1
    ∧ (∀ i, i < (calculate_star_function [idMat3] 1 (fun _ => 1)).1 →
        ∃ op ∈ [idMat3].take 1,
          (calculate_star_function [idMat3] 1 (fun _ => 1)).2.getD i 0 =
            mulVec3 op (fun _ => 1))
    ∧ (∀ i j, i < (calculate_star_function [idMat3] 1 (fun _ => 1)).1 →
        j < (calculate_star_function [idMat3] 1 (fun _ => 1)).1 → i ≠ j →
        (calculate_star_function [idMat3] 1 (fun _ => 1)).2.getD i 0 ≠
          (calculate_star_function [idMat3] 1 (fun _ => 1)).2.getD j 0)
    ∧ (∀ i, (calculate_star_function [idMat3] 1 (fun _ => 1)).1 ≤ i → i < 1 →
        (calculate_star_function [idMat3] 1 (fun _ => 1)).2.getD i 0 =
          (0 : Vec3))
    ∧ ((∀ op ∈ [idMat3].take 1, mulVec3 op (fun _ => 1) = (0 : Vec3)) →
        (calculate_star_function [idMat3] 1 (fun _ => 1)).1 = 1) :=
  c7_star_function_invariants [idMat3] 1 (fun _ => 1)
    (by with_unfolding_all decide) (by with_unfolding_all decide)

theorem zipWith3_length {α β γ δ : Type} (f : α → β → γ → δ) :
    ∀ (l1 : List α) (l2 : List β) (l3 : List γ),
      (zipWith3 f l1 l2 l3).length = min l1.length (min l2.length l3.length)
  | [], _, _ => by simp [zipWith3]
  | _ :: _, [], _ => by simp [zipWith3]
  | _ :: _, _ :: _, [] => by simp [zipWith3]
  | a :: as, b :: bs, c :: cs => by
    simp only [zipWith3, List.length_cons, zipWith3_length f as bs cs]
    omega

theorem dspwreOf_length (env : NumericEnv) (p : BoltzTraP1Parameters)
    (k : Vec3) : (dspwreOf env p k).length =
      min p.star_vector_products.length
        (min p.star_vectors.length p.num_star_vectors.length) := by
  unfold dspwreOf argOf
  rw [zipWith3_length, List.length_map, List.length_map]

/-- Success shape of the wrapper for a single-band coefficient vector with
velocity requested: the energy is `dot(spwre, c) * Ry_to_eV` and the velocity
is the absolute-valued, unit-scaled product of the normalised lattice matrix
with `np.dot(dspwre.T, c)`. -/
theorem wrapper_vec_ok (env : NumericEnv) (p : BoltzTraP1Parameters)
    (matrix : Mat3) (k : Vec3) (c : List ℚ)
    (hc : c.length = p.star_vectors.length)
    (hn : p.num_star_vectors.length = p.star_vectors.length)
    (hsvp : p.star_vector_products.length = p.star_vectors.length) :
    _get_energy_wrapper env p (.vec c) matrix k true =
      .ok ⟨.scalar (dotL (spwreOf env p k) c * Ry_to_eV),
        some (.vec (absScale (mulVec3
          (fun i j => matrix i j / env.frobNorm matrix)
          (fun j => dotL ((dspwreOf env p k).map (fun v => v j)) c))))⟩ := by
  have hlen1 : c.length = (spwreOf env p k).length := by
    rw [spwreOf_length, hn, min_self, hc]
  have hlen2 : c.length =
      ((fun j : Fin 3 => (dspwreOf env p k).map (fun v => v j)) 0).length := by
    rw [List.length_map, dspwreOf_length, hn, hsvp, min_self, min_self, hc]
  simp only [_get_energy_wrapper, npDotVecBlock, npDotRows3Block]
  rw [if_pos hlen1, if_pos hlen2]
  rfl

theorem absScale_nonneg (v : Vec3) (j : Fin 3) : 0 ≤ absScale v j := by
  unfold absScale
  apply div_nonneg
  · exact mul_nonneg (mul_nonneg (mul_nonneg (abs_nonneg _)
      (by norm_num [A_to_m])) (by norm_num [m_to_cm])) (by norm_num [Ry_to_eV])
  · norm_num [hbar]

theorem exceptSequence_map_ok (resfn : Vec3 → EvalResult) :
    ∀ ks : List Vec3,
      exceptSequence (ks.map (fun k => Except.ok (resfn k))) =
        .ok (ks.map resfn)
  | [] => rfl
  | k :: ks => by
    simp only [List.map_cons, exceptSequence, exceptMapList]
    have := exceptSequence_map_ok resfn ks
    simp only [exceptSequence] at this
    rw [this]

/-- C8: a bulk evaluation over a valid single band succeeds and returns one
velocity per k-point; every component of every returned velocity is
non-negative (componentwise absolute value by construction), and each one
coincides with the velocity that the single-point `get_energy` with
`return_velocity=true` returns for the same k-point, band and lattice
matrix. -/
theorem c8_velocity_nonneg_consistent
    (env : NumericEnv) (p : BoltzTraP1Parameters) (matrix : Mat3)
    (kpoints : List Vec3) (iband : IBand) (scissor : ℚ) (is_cb : Option Bool)
    (n_jobs : ℕ) (order : List ℕ) (c : List ℚ)
    (hblk : _get_interpolation_coefficients p iband = .ok (.vec c))
    (hc : c.length = p.star_vectors.length)
    (hn : p.num_star_vectors.length = p.star_vectors.length)
    (hsvp : p.star_vector_products.length = p.star_vectors.length)
    (hguard : ¬(scissor ≠ 0 ∧ is_cb = Option.none))
    (hdisp : n_jobs = 1 ∨ order.Perm (List.range kpoints.length)) :
    ∃ es vels,
      get_energies env p matrix kpoints iband scissor is_cb true n_jobs order
        = .ok (es, some vels)
      ∧ vels.length = kpoints.length
      ∧ ∀ i, i < kpoints.length →
          ∃ v : Vec3,
            vels.getD i Option.none = some (.vec v)
            ∧ (∀ j, 0 ≤ v j)
            ∧ ∃ r, get_energy env p matrix (kpoints.getD i (fun _ => 0)) iband
                true = .ok r ∧ r.velocity = some (.vec v) := by
  have hwrap : ∀ k2 : Vec3,
      _get_energy_wrapper env p (.vec c) matrix k2 true =
        .ok ⟨.scalar (dotL (spwreOf env p k2) c * Ry_to_eV),
          some (.vec (absScale (mulVec3
            (fun i j => matrix i j / env.frobNorm matrix)
            (fun j => dotL ((dspwreOf env p k2).map (fun v => v j)) c))))⟩ :=
    fun k2 => wrapper_vec_ok env p matrix k2 c hc hn hsvp
  refine ⟨kpoints.map (fun k2 =>
      npValSub (NpVal.scalar (dotL (spwreOf env p k2) c * Ry_to_eV))
        (scissorShift scissor is_cb)),
    kpoints.map (fun k2 => some (VelVal.vec (absScale (mulVec3
      (fun i j => matrix i j / env.frobNorm matrix)
      (fun j => dotL ((dspwreOf env p k2).map (fun v => v j)) c))))),
    ?_, ?_, ?_⟩
  · simp only [get_energies]
    rw [if_neg hguard]
    simp only [hblk]
    rw [dispatch_eq n_jobs order _ kpoints hdisp]
    rw [List.map_congr_left (fun k2 _ => hwrap k2)]
    simp only [exceptSequence_map_ok, List.map_map]
    rfl
  · rw [List.length_map]
  · intro i hi
    have hilt : i < (kpoints.map (fun k2 => some (VelVal.vec (absScale (mulVec3
        (fun i j => matrix i j / env.frobNorm matrix)
        (fun j => dotL ((dspwreOf env p k2).map (fun v => v j)) c)))))).length := by
      rw [List.length_map]; exact hi
    refine ⟨absScale (mulVec3
      (fun i j => matrix i j / env.frobNorm matrix)
      (fun j => dotL ((dspwreOf env p (kpoints.getD i (fun _ => 0))).map
        (fun v => v j)) c)), ?_, fun j => absScale_nonneg _ j, ?_⟩
    · rw [List.getD_eq_getElem _ _ hilt, List.getElem_map]
      rw [List.getD_eq_getElem _ _ hi]
    · have hg : get_energy env p matrix (kpoints.getD i (fun _ => 0)) iband
          true = .ok ⟨.scalar (dotL (spwreOf env p (kpoints.getD i
              (fun _ => 0))) c * Ry_to_eV),
            some (.vec (absScale (mulVec3
              (fun i j => matrix i j / env.frobNorm matrix)
              (fun j => dotL ((dspwreOf env p (kpoints.getD i
                (fun _ => 0))).map (fun v => v j)) c))))⟩ := by
        simp only [get_energy, hblk]
        exact hwrap (kpoints.getD i (fun _ => 0))
      exact ⟨_, hg, rfl⟩

/-- Witness for C8 at the one-band, one-G-vector fixture. -/
theorem c8_witness :
    ∃ es vels,
      get_energies testEnv testParams (fun _ _ => 1) [fun _ => 0] (.int 1) 0
          Option.none true 1 [] = .ok (es, some vels)
      ∧ vels.length = ([(fun _ => 0 : Vec3)]).length
      ∧ ∀ i, i < ([(fun _ => 0 : Vec3)]).length →
          ∃ v : Vec3,
            vels.getD i Option.none = some (.vec v)
            ∧ (∀ j, 0 ≤ v j)
            ∧ ∃ r, get_energy testEnv testParams (fun _ _ => 1)
                (([(fun _ => 0 : Vec3)]).getD i (fun _ => 0)) (.int 1) true =
                  .ok r ∧ r.velocity = some (.vec v) :=
  c8_velocity_nonneg_consistent testEnv testParams (fun _ _ => 1)
    [fun _ => 0] (.int 1) 0 Option.none 1 [] [2]
    (by with_unfolding_all decide) (by with_unfolding_all decide)
    (by with_unfolding_all decide) (by with_unfolding_all decide)
    (fun hx => hx.1 rfl) (Or.inl rfl)

/-! Lemmas about the parse loop, used to settle the truncated-file claim. -/

theorem intRange_cons (s : ℤ) {m : ℕ} (hm : 1 ≤ m) :
    intRange s m = s :: intRange (s + 1) (m - 1) := by
  obtain ⟨m1, rfl⟩ : ∃ m1, m = m1 + 1 := ⟨m - 1, by omega⟩
  unfold intRange
  rw [List.range_succ_eq_map]
  simp only [List.map_cons, List.map_map, Nat.add_sub_cancel, Nat.cast_zero,
    add_zero]
  congr 1
  apply List.map_congr_left
  intro t _
  simp only [Function.comp_apply]
  push_cast
  ring

theorem intRange_ne_nil (s : ℤ) {m : ℕ} (hm : 1 ≤ m) : intRange s m ≠ [] := by
  rw [intRange_cons s hm]
  simp

theorem parseLoop_gvecs (ng : ℕ) :
    ∀ (glines : List (List ℚ)) (rest : List (List ℚ)) (i : ℕ)
      (st : ParseState),
      (∀ l ∈ glines, l.length = 3) → i + glines.length ≤ ng →
      ∃ gv : List Vec3, gv.length = st.g_vectors.length ∧
        parseLoop ng i (glines ++ rest) st =
          parseLoop ng (i + glines.length) rest
            { st with g_vectors := gv } := by
  intro glines
  induction glines with
  | nil =>
    intro rest i st _ _
    exact ⟨st.g_vectors, rfl, rfl⟩
  | cons l ls ih =>
    intro rest i st h3 hle
    have hl3 : l.length = 3 := h3 l (List.mem_cons_self _ _)
    have hi : i < ng := by
      simp only [List.length_cons] at hle
      omega
    have hstep : parseLoop ng i ((l :: ls) ++ rest) st =
        parseLoop ng (i + 1) (ls ++ rest)
          { st with g_vectors := st.g_vectors.set i (fun j => l.getD (j : ℕ) 0) } := by
      simp only [List.cons_append, parseLoop]
      rw [if_pos hi]
      simp only [parseGvecLine]
      rw [if_pos hl3]
      rfl
    obtain ⟨gv, hgvlen, heq⟩ := ih rest (i + 1)
      ⟨st.g_vectors.set i (fun j => l.getD (j : ℕ) 0), st.min_band,
        st.max_band, st.iband, st.coefficients⟩
      (fun x hx => h3 x (List.mem_cons_of_mem _ hx))
      (by simp only [List.length_cons] at hle; omega)
    have harith : i + 1 + ls.length = i + (l :: ls).length := by
      simp only [List.length_cons]
      omega
    rw [harith] at heq
    exact ⟨gv, by rw [hgvlen]; simp, by rw [hstep, heq]⟩

theorem parseLoop_coeffs (ng : ℕ) :
    ∀ (clines : List (List ℚ)) (m : ℕ) (i : ℕ) (st : ParseState),
      ng < i →
      st.iband = intRange (i : ℤ) m →
      clines.length < m →
      parseLoop ng i clines st = .ok
        { st with coefficients := st.coefficients ++ clines,
                  iband := intRange ((i : ℤ) + clines.length)
                    (m - clines.length) } := by
  intro clines
  induction clines with
  | nil =>
    intro m i st hng hib hlen
    cases st with
    | mk gv mnb mxb ib cf =>
      simp only [parseLoop, List.append_nil]
      simp only at hib
      rw [hib]
      simp
  | cons cl cls ih =>
    intro m i st hng hib hlen
    have hm1 : 1 ≤ m := by omega
    have hibcons : st.iband = (i : ℤ) :: intRange ((i : ℤ) + 1) (m - 1) := by
      rw [hib, intRange_cons _ hm1]
    have hmem : (i : ℤ) ∈ st.iband := by
      rw [hibcons]
      exact List.mem_cons_self _ _
    have herase : st.iband.erase (i : ℤ) = intRange ((i : ℤ) + 1) (m - 1) := by
      rw [hibcons]
      exact List.erase_cons_head _ _
    have hm2 : 1 ≤ m - 1 := by
      simp only [List.length_cons] at hlen
      omega
    have hne : intRange ((i : ℤ) + 1) (m - 1) ≠ [] := intRange_ne_nil _ hm2
    simp only [parseLoop]
    rw [if_neg (by omega : ¬i < ng), if_neg (by omega : ¬i = ng),
      if_pos hmem, herase, if_neg hne]
    have hnext := ih (m - 1) (i + 1)
      ⟨st.g_vectors, st.min_band, st.max_band,
        intRange ((i : ℤ) + 1) (m - 1), st.coefficients ++ [cl]⟩
      (by omega) (by norm_cast)
      (by simp only [List.length_cons] at hlen; omega)
    rw [show ((i : ℕ) : ℤ) + 1 = (((i + 1 : ℕ) : ℤ)) by push_cast; ring] at herase
    rw [hnext]
    simp only [Except.ok.injEq]
    cases st with
    | mk gv mnb mxb ib cf =>
      simp only [ParseState.mk.injEq, true_and]
      constructor
      · congr 1
        · simp only [List.length_cons]
          push_cast
          ring
        · simp only [List.length_cons]
          omega
      · simp [List.append_assoc]

theorem truncInt_intCast (z : ℤ) : truncInt (z : ℚ) = z := by
  simp [truncInt]

theorem iband_build_eq (ng : ℕ) (mn mx : ℤ) :
    ((List.range (mx + 1 - mn).toNat).map
      (fun (j : ℕ) => (ng : ℤ) + (((mn + (j : ℤ)) - mn) + 1)))
      = intRange ((ng : ℤ) + 1) (mx + 1 - mn).toNat := by
  unfold intRange
  apply List.map_congr_left
  intro j _
  ring

theorem parseLoop_minmax (ng : ℕ) (mn mx : ℤ) (rest : List (List ℚ))
    (st : ParseState) :
    parseLoop ng ng ([(mn : ℚ), (mx : ℚ)] :: rest) st =
      parseLoop ng (ng + 1) rest
        { st with min_band := mn, max_band := mx, iband := intRange ((ng : ℤ) + 1) (mx + 1 - mn).toNat } := by
  simp only [parseLoop]
  rw [if_neg (lt_irrefl ng)]
  simp only [eq_self_iff_true, if_true, truncInt_intCast]
  rw [iband_build_eq]

/-- C3 amended: the parser raises no error on a file with fewer coefficient
lines than `max_band - min_band + 1` — there is no `MalformedCoefficientFile`
error anywhere in the code.  Given well-formed header, cell, symmetry and
G-vector sections, it silently returns a parameters object whose
`coefficients` list contains exactly the rows that were present. -/
theorem c3_truncated_parse (hdr0 hdr3 : ℚ) (ng nsym : ℕ)
    (cellLine symLine : List ℚ) (glines clines : List (List ℚ)) (mn mx : ℤ)
    (hng : 1 ≤ ng)
    (hcell : ¬cellLine.length < 9)
    (hsym : ¬symLine.length < 3 * 3 * 192)
    (hglen : glines.length = ng)
    (hg3 : ∀ l ∈ glines, l.length = 3)
    (hk : (clines.length : ℤ) < mx - mn + 1) :
    ∃ p, _get_interpolation_parameters
        ([hdr0, (ng : ℚ), (nsym : ℚ), hdr3] :: cellLine :: symLine ::
          (glines ++ ([(mn : ℚ), (mx : ℚ)] :: clines)))
      = .ok p
    ∧ p.coefficients = clines ∧ p.min_band = mn ∧ p.max_band = mx := by
  obtain ⟨gv, hgvlen, heq⟩ := parseLoop_gvecs ng glines
    ([(mn : ℚ), (mx : ℚ)] :: clines) 0
    ⟨List.replicate ng (0 : Vec3), 0, 0, [], []⟩ hg3 (by simp [hglen])
  simp only [Nat.zero_add, hglen] at heq
  simp only [List.length_replicate] at hgvlen
  rw [parseLoop_minmax] at heq
  rw [parseLoop_coeffs ng clines ((mx + 1 - mn).toNat) (ng + 1) _ (by omega)
    (by push_cast; rfl) (by omega)] at heq
  have hgvne : gv ≠ [] := by
    intro hcon
    rw [hcon] at hgvlen
    simp at hgvlen
    omega
  simp only [_get_interpolation_parameters, toIntStrict, Rat.den_natCast,
    Rat.num_natCast, Int.toNat_natCast, eq_self_iff_true, if_true,
    Int.natCast_nonneg, and_self]
  rw [if_neg hcell, if_neg hsym]
  rw [heq]
  dsimp only
  rw [if_neg (by
    simp only [List.map_eq_nil_iff]
    intro hcon
    exact hgvne hcon)]
  exact ⟨_, rfl, by simp, rfl, rfl⟩

/-- Witness for the amended C3 at the concrete truncated file (two coefficient
lines promised by the `1 2` band-bounds line, one present). -/
theorem c3_witness :
    ∃ p, _get_interpolation_parameters
        ([0, ((1 : ℕ) : ℚ), ((2 : ℕ) : ℚ), 0] :: List.replicate 9 (0 : ℚ) ::
          List.replicate 1728 (0 : ℚ) ::
          ([[1, 2, 3]] ++ ([((1 : ℤ) : ℚ), ((2 : ℤ) : ℚ)] :: [[5]])))
      = .ok p
    ∧ p.coefficients = [[5]] ∧ p.min_band = 1 ∧ p.max_band = 2 :=
  c3_truncated_parse 0 0 1 2 (List.replicate 9 0) (List.replicate 1728 0)
    [[1, 2, 3]] [[5]] 1 2
    (by with_unfolding_all decide) (by with_unfolding_all decide)
    (by with_unfolding_all decide) (by with_unfolding_all decide)
    (by with_unfolding_all decide) (by with_unfolding_all decide)

/-- C3 counterexample to the original claim: the truncated file (its `1 2`
band-bounds line promises two coefficient lines, only one is present) does NOT
make the parser fail — `_get_interpolation_parameters` returns a parameters
object. -/
theorem c3_counterexample :
    isOkE (_get_interpolation_parameters truncatedFile) = true := by
  with_unfolding_all decide

/-- C2 counterexample to the original claim: for the concrete file whose two
retained symmetry operations coincide, the parsed parameters have
`star_vector_products_sq[0]` with only `max(num_star_vectors) = 1` slot,
while `star_vectors[0]` has `num_symmetries = 2` padded slots — the padded
lengths differ. -/
theorem c2_counterexample :
    (_get_interpolation_parameters smallStarFile).map
      (fun p => ((p.star_vector_products_sq.getD 0 []).length,
        p.num_symmetries, (p.star_vectors.getD 0 []).length)) =
    .ok (1, 2, 2) := by with_unfolding_all decide

theorem le_foldr_max : ∀ {l : List ℕ} {a : ℕ}, a ∈ l →
    a ≤ l.foldr Nat.max 0 := by
  intro l
  induction l with
  | nil => intro a h; cases h
  | cons x xs ih =>
    intro a h
    rcases List.mem_cons.mp h with rfl | h2
    · exact Nat.le_max_left _ _
    · exact le_trans (ih h2) (Nat.le_max_right _ _)

/-- C2 amended: for every G-vector index `g`, `star_vector_products_sq[g]` has
one 3x3 slot per index below `max(num_star_vectors)` (not per symmetry slot):
slot `i` equals the outer product of `star_vector_products[g][i]` with itself
for `i < num_star_vectors[g]`, and equals the zero matrix for
`num_star_vectors[g] ≤ i < max(num_star_vectors)`, so the padded slots
contribute 0 to any sum. -/
theorem c2_products_sq_slots (nsv : List ℕ) (svp : List (List Vec3)) (g : ℕ)
    (hg : g < nsv.length) :
    ((star_products_sq_of nsv svp).getD g []).length = nsv.foldr Nat.max 0
    ∧ (∀ i, i < nsv.getD g 0 →
        ((star_products_sq_of nsv svp).getD g []).getD i 0 =
          outer ((svp.getD g []).getD i 0) ((svp.getD g []).getD i 0))
    ∧ (∀ i, nsv.getD g 0 ≤ i → i < nsv.foldr Nat.max 0 →
        ((star_products_sq_of nsv svp).getD g []).getD i 0 = (0 : Mat3)) := by
  have hmax : nsv.getD g 0 ≤ nsv.foldr Nat.max 0 := by
    have hmem : nsv.getD g 0 ∈ nsv := by
      rw [List.getD_eq_getElem _ _ hg]
      exact List.getElem_mem _
    exact le_foldr_max hmem
  have hglt : g < (List.range nsv.length).length := by
    rw [List.length_range]
    exact hg
  have hrow : (star_products_sq_of nsv svp).getD g [] =
      (List.range (nsv.foldr Nat.max 0)).map (fun i =>
        if i < nsv.getD g 0 then
          outer ((svp.getD g []).getD i 0) ((svp.getD g []).getD i 0)
        else (0 : Mat3)) := by
    unfold star_products_sq_of
    rw [List.getD_eq_getElem _ _ (by simpa using hg), List.getElem_map,
      List.getElem_range]
  refine ⟨by rw [hrow]; simp, ?_, ?_⟩
  · intro i hi
    have hilt : i < nsv.foldr Nat.max 0 := lt_of_lt_of_le hi hmax
    rw [hrow, List.getD_eq_getElem _ _ (by simpa using hilt),
      List.getElem_map, List.getElem_range, if_pos hi]
  · intro i hge hilt
    rw [hrow, List.getD_eq_getElem _ _ (by simpa using hilt),
      List.getElem_map, List.getElem_range, if_neg (by omega)]

/-- Witness for the amended C2 on a concrete two-G-vector star layout with
`num_star_vectors = [1, 2]`. -/
theorem c2_witness :
    (((star_products_sq_of [1, 2] [[fun _ => 1, fun _ => 2],
        [fun _ => 3, fun _ => 4]]).getD 0 []).length =
      ([1, 2] : List ℕ).foldr Nat.max 0)
    ∧ (∀ i, i < ([1, 2] : List ℕ).getD 0 0 →
        ((star_products_sq_of [1, 2] [[fun _ => 1, fun _ => 2],
          [fun _ => 3, fun _ => 4]]).getD 0 []).getD i 0 =
          outer ((([[fun _ => 1, fun _ => 2], [fun _ => 3, fun _ => 4]] :
              List (List Vec3)).getD 0 []).getD i 0)
            ((([[fun _ => 1, fun _ => 2], [fun _ => 3, fun _ => 4]] :
              List (List Vec3)).getD 0 []).getD i 0))
    ∧ (∀ i, ([1, 2] : List ℕ).getD 0 0 ≤ i →
        i < ([1, 2] : List ℕ).foldr Nat.max 0 →
        ((star_products_sq_of [1, 2] [[fun _ => 1, fun _ => 2],
          [fun _ => 3, fun _ => 4]]).getD 0 []).getD i 0 = (0 : Mat3)) :=
  c2_products_sq_slots [1, 2]
    [[fun _ => 1, fun _ => 2], [fun _ => 3, fun _ => 4]] 0
    (by with_unfolding_all decide)

end Amset
